import Mathlib

/-!
Verification of the `version` package: a build-version metadata record, a
legacy "Key: value" text parser (`NewBuildInfoFromOldString`), and string
renderers (compact line, user agent).  Strings are modelled as `List Char`;
Go's multiple return `(BuildInfo, error)` is modelled as a pair
`BuildInfo × Option (List Char)` where `none` means a nil error and
`some msg` carries the error message text.
-/

/-- Character data of a string literal; all modelling works on `List Char`. -/
def str (s : String) : List Char := s.data

/-- Go `unicode.IsSpace`: the Unicode white-space property, as tested by
`strings.TrimSpace`. -/
def isGoSpace (c : Char) : Bool :=
  c == '\t' || c == '\n' || c == Char.ofNat 0x0B || c == Char.ofNat 0x0C ||
  c == '\r' || c == ' ' || c == Char.ofNat 0x85 || c == Char.ofNat 0xA0 ||
  c == Char.ofNat 0x1680 ||
  (0x2000 ≤ c.toNat && c.toNat ≤ 0x200A) ||
  c == Char.ofNat 0x2028 || c == Char.ofNat 0x2029 ||
  c == Char.ofNat 0x202F || c == Char.ofNat 0x205F || c == Char.ofNat 0x3000

/-- Drop leading white space (Go `strings.TrimLeft(s, space)`). -/
def trimLeft : List Char → List Char
  | [] => []
  | c :: cs => if isGoSpace c then trimLeft cs else c :: cs

/-- Drop trailing white space. -/
def trimRight (s : List Char) : List Char := (trimLeft s.reverse).reverse

/-- Go `strings.TrimSpace`: drop leading and trailing white space. -/
def trimSpace (s : List Char) : List Char := trimRight (trimLeft s)

/-- Go `strings.Split(s, "\n")`: split on every newline; the empty string
yields one empty field, `n` newlines yield `n+1` fields. -/
def splitLines : List Char → List (List Char)
  | [] => [[]]
  | c :: cs =>
    if c = '\n' then [] :: splitLines cs
    else
      match splitLines cs with
      | [] => [[c]]
      | l :: ls => (c :: l) :: ls

/-- Go `strings.SplitN(line, ":", 2)` recast as a pair: the text before the
first colon, and `some` of the text after it (`none` when the line has no
colon, in which case the first component is the whole line — Go's
`fields[0]`). -/
def breakColon : List Char → List Char × Option (List Char)
  | [] => ([], none)
  | c :: cs =>
    if c = ':' then ([], some cs)
    else
      let p := breakColon cs
      (c :: p.1, p.2)

/-- The `BuildInfo` struct of the source (field `GolangVersion` holds the
runtime/toolchain identifier, `Vendor` the builder organization). -/
structure BuildInfo where
  Version : List Char
  GitRevision : List Char
  GolangVersion : List Char
  BuildStatus : List Char
  GitTag : List Char
  Vendor : List Char
deriving Repr, DecidableEq

/-- Go's zero value `BuildInfo{}`: every field is the empty string. -/
def BuildInfo.zero : BuildInfo := ⟨[], [], [], [], [], []⟩

/-- The error message built by
`fmt.Errorf("invalid BuildInfo input, field '%s' is not valid", fields[0])`. -/
def invalidFieldMsg (f : List Char) : List Char :=
  str "invalid BuildInfo input, field '" ++ f ++ str "' is not valid"

/-- The `switch fields[0]` dispatch of `NewBuildInfoFromOldString`: a
recognized key overwrites its field, any other key leaves the record
unchanged. -/
def applyField (res : BuildInfo) (key value : List Char) : BuildInfo :=
  if key = str "Version" then { res with Version := value }
  else if key = str "GitRevision" then { res with GitRevision := value }
  else if key = str "GolangVersion" then { res with GolangVersion := value }
  else if key = str "BuildStatus" then { res with BuildStatus := value }
  else if key = str "GitTag" then { res with GitTag := value }
  else res

/-- The line loop of `NewBuildInfoFromOldString`: skip a line that is blank
after trimming; a line without a colon aborts with the zero record and an
error naming `fields[0]` (the whole line); otherwise dispatch the key with
the whitespace-trimmed value. -/
def parseLines : BuildInfo → List (List Char) → BuildInfo × Option (List Char)
  | res, [] => (res, none)
  | res, line :: rest =>
    if trimSpace line = [] then parseLines res rest
    else
      match breakColon line with
      | (f0, none) => (BuildInfo.zero, some (invalidFieldMsg f0))
      | (f0, some f1) => parseLines (applyField res f0 (trimSpace f1)) rest

/-- `NewBuildInfoFromOldString`: split the input on newlines and run the
line loop starting from the zero record. -/
def NewBuildInfoFromOldString (oldOutput : List Char) :
    BuildInfo × Option (List Char) :=
  parseLines BuildInfo.zero (splitLines oldOutput)

/-- The `String()` method: `fmt.Sprintf("%v-%v-%v", b.Version,
b.GitRevision, b.BuildStatus)`. -/
def BuildInfo.String (b : BuildInfo) : List Char :=
  b.Version ++ str "-" ++ b.GitRevision ++ str "-" ++ b.BuildStatus

/-- Go `os.IsPathSeparator` on unix: the separator is `/`. -/
def isPathSeparator (c : Char) : Bool := c = '/'

/-- The trailing-separator-stripping loop of `filepath.Base`. -/
def dropTrailingSep (p : List Char) : List Char :=
  (p.reverse.dropWhile isPathSeparator).reverse

/-- The last-element step of `filepath.Base`: everything after the last
separator (the whole path when it has none). -/
def afterLastSep (p : List Char) : List Char :=
  (p.reverse.takeWhile (fun c => !isPathSeparator c)).reverse

/-- Go `filepath.Base` (unix): `"."` for the empty path, strip trailing
separators, keep the part after the last separator, `"/"` when only
separators remain. -/
def filepathBase (path : List Char) : List Char :=
  if path = [] then str "."
  else if afterLastSep (dropTrailingSep path) = [] then str "/"
  else afterLastSep (dropTrailingSep path)

/-- `adjustCommand`: the last component of the command path, or the literal
`"unknown"` for an empty path. -/
def adjustCommand (p : List Char) : List Char :=
  if p = [] then str "unknown" else filepathBase p

/-- The `UserAgent()` method, `fmt.Sprintf("%v/%v (%v/%v) istio/%v", ...)`,
with the ambient `os.Args[0]`, `runtime.GOOS` and `runtime.GOARCH` made
explicit parameters. -/
def BuildInfo.UserAgent (b : BuildInfo)
    (argv0 osName archName : List Char) : List Char :=
  adjustCommand argv0 ++ str "/" ++ b.Version ++ str " (" ++ osName ++
    str "/" ++ archName ++ str ") istio/" ++ b.Vendor

/-- The JSON serialization of `BuildInfo` as key/value pairs, following the
struct tags `json:"version"`, `json:"revision"`, `json:"golang_version"`,
`json:"status"`, `json:"tag"`, `json:"vendor"` in declaration order. -/
def toJSONFields (b : BuildInfo) : List (List Char × List Char) :=
  [(str "version", b.Version), (str "revision", b.GitRevision),
   (str "golang_version", b.GolangVersion), (str "status", b.BuildStatus),
   (str "tag", b.GitTag), (str "vendor", b.Vendor)]

/-- Spec-side view of one line, written from the spec's field-dispatch
wording: a blank line carries nothing; a `key:rawValue` line carries the
trimmed value exactly when its verbatim key equals `k`; a colon-free line
carries nothing. -/
def specKeyValue (k l : List Char) : Option (List Char) :=
  if trimSpace l = [] then none
  else
    match breakColon l with
    | (f0, some f1) => if f0 = k then some (trimSpace f1) else none
    | (_, none) => none

/-- Spec-side view of a whole input, written from the spec's
last-occurrence-wins wording: the value carried by the last line that
carries one for key `k`, or the default `d` when no line does. -/
def specLastValue (k : List Char) (ls : List (List Char))
    (d : List Char) : List Char :=
  ls.foldl (fun acc l => (specKeyValue k l).getD acc) d

/-- A line the parser accepts without aborting: blank after trimming, or
containing a colon. -/
abbrev LineOK (l : List Char) : Prop := trimSpace l = [] ∨ ':' ∈ l

/-- A field value that survives being printed on a legacy line and
re-parsed: it contains no newline and is unchanged by trimming. -/
abbrev GoodVal (v : List Char) : Prop := '\n' ∉ v ∧ trimSpace v = v

/-- All five recognized field values of a record survive the legacy
round-trip. -/
abbrev GoodVals (b : BuildInfo) : Prop :=
  GoodVal b.Version ∧ GoodVal b.GitRevision ∧ GoodVal b.GolangVersion ∧
    GoodVal b.BuildStatus ∧ GoodVal b.GitTag

/-- One line of the legacy text format, `Key: value`. -/
def legacyLine (k v : List Char) : List Char := k ++ ':' :: ' ' :: v

/-- Modelled from the spec: the repository contains no renderer of the
legacy multi-line format (only the parser `NewBuildInfoFromOldString`); the
spec describes that format as newline-separated `Key: value` lines for the
five recognized keys. -/
def renderLegacy (b : BuildInfo) : List Char :=
  legacyLine (str "Version") b.Version ++ '\n' ::
    (legacyLine (str "GitRevision") b.GitRevision ++ '\n' ::
      (legacyLine (str "GolangVersion") b.GolangVersion ++ '\n' ::
        (legacyLine (str "BuildStatus") b.BuildStatus ++ '\n' ::
          (legacyLine (str "GitTag") b.GitTag ++ '\n' :: []))))

theorem breakColon_snd_none_iff (l : List Char) :
    (breakColon l).2 = none ↔ ':' ∉ l := by
  induction l with
  | nil => simp [breakColon]
  | cons c cs ih =>
    by_cases hc : c = ':'
    · subst hc
      simp [breakColon]
    · simp only [breakColon, if_neg hc]
      rw [List.mem_cons]
      constructor
      · intro h hmem
        rcases hmem with h1 | h2
        · exact hc h1.symm
        · exact (ih.mp h) h2
      · intro h
        exact ih.mpr (fun h2 => h (Or.inr h2))

theorem breakColon_fst_of_none (l : List Char)
    (h : (breakColon l).2 = none) : (breakColon l).1 = l := by
  induction l with
  | nil => rfl
  | cons c cs ih =>
    by_cases hc : c = ':'
    · subst hc
      simp [breakColon] at h
    · simp only [breakColon, if_neg hc] at h ⊢
      rw [ih h]

theorem breakColon_cons_ne (c : Char) (cs : List Char) (hc : ¬ c = ':') :
    breakColon (c :: cs) = (c :: (breakColon cs).1, (breakColon cs).2) := by
  simp only [breakColon, if_neg hc]

theorem breakColon_key (k v : List Char) (hk : ':' ∉ k) :
    breakColon (k ++ ':' :: v) = (k, some v) := by
  induction k with
  | nil => simp [breakColon]
  | cons c cs ih =>
    have hc : ¬ c = ':' := fun h => hk (h ▸ List.mem_cons_self c cs)
    have hcs : ':' ∉ cs := fun h => hk (List.mem_cons_of_mem c h)
    rw [List.cons_append, breakColon_cons_ne c _ hc, ih hcs]

theorem mem_trimLeft (l : List Char) (c : Char) (hm : c ∈ l)
    (hs : isGoSpace c = false) : c ∈ trimLeft l := by
  induction l with
  | nil => cases hm
  | cons a as ih =>
    by_cases ha : isGoSpace a
    · simp only [trimLeft, if_pos ha]
      rcases List.mem_cons.mp hm with h1 | h2
      · subst h1
        rw [hs] at ha
        cases ha
      · exact ih h2
    · simp only [trimLeft, if_neg ha]
      exact hm

theorem mem_trimSpace (l : List Char) (c : Char) (hm : c ∈ l)
    (hs : isGoSpace c = false) : c ∈ trimSpace l := by
  unfold trimSpace trimRight
  have h1 : c ∈ trimLeft l := mem_trimLeft l c hm hs
  have h2 : c ∈ (trimLeft l).reverse := List.mem_reverse.mpr h1
  have h3 : c ∈ trimLeft ((trimLeft l).reverse) := mem_trimLeft _ c h2 hs
  exact List.mem_reverse.mpr h3

theorem trimSpace_ne_nil_of_colon (l : List Char) (hm : ':' ∈ l) :
    trimSpace l ≠ [] :=
  List.ne_nil_of_mem (mem_trimSpace l ':' hm (by decide))

theorem splitLines_ne_nil (a : List Char) : splitLines a ≠ [] := by
  induction a with
  | nil => simp [splitLines]
  | cons c cs ih =>
    unfold splitLines
    by_cases hc : c = '\n'
    · simp [hc]
    · rw [if_neg hc]
      rcases h : splitLines cs with _ | ⟨l, ls⟩
      · simp
      · simp

theorem splitLines_cons_nl (cs : List Char) :
    splitLines ('\n' :: cs) = [] :: splitLines cs := rfl

theorem splitLines_cons_of_ne (c : Char) (cs l : List Char)
    (ls : List (List Char)) (hc : ¬ c = '\n') (h : splitLines cs = l :: ls) :
    splitLines (c :: cs) = (c :: l) :: ls := by
  simp only [splitLines, if_neg hc, h]

theorem splitLines_append (a b : List Char) :
    splitLines (a ++ '\n' :: b) = splitLines a ++ splitLines b := by
  induction a with
  | nil => simp [splitLines]
  | cons c cs ih =>
    by_cases hc : c = '\n'
    · subst hc
      rw [List.cons_append, splitLines_cons_nl, splitLines_cons_nl, ih,
        List.cons_append]
    · rcases h : splitLines cs with _ | ⟨l, ls⟩
      · exact absurd h (splitLines_ne_nil cs)
      · have h2 : splitLines (cs ++ '\n' :: b) = l :: (ls ++ splitLines b) := by
          rw [ih, h, List.cons_append]
        rw [List.cons_append, splitLines_cons_of_ne c _ _ _ hc h2,
          splitLines_cons_of_ne c _ _ _ hc h, List.cons_append]

theorem splitLines_eq_single (a : List Char) (h : '\n' ∉ a) :
    splitLines a = [a] := by
  induction a with
  | nil => rfl
  | cons c cs ih =>
    have hc : ¬ c = '\n' := fun hc => h (hc ▸ List.mem_cons_self c cs)
    have hcs : '\n' ∉ cs := fun hm => h (List.mem_cons_of_mem c hm)
    simp only [splitLines, if_neg hc, ih hcs]

theorem parseLines_nil (res : BuildInfo) : parseLines res [] = (res, none) :=
  rfl

theorem parseLines_cons_blank (res : BuildInfo) (l : List Char)
    (rest : List (List Char)) (hb : trimSpace l = []) :
    parseLines res (l :: rest) = parseLines res rest := by
  simp only [parseLines, if_pos hb]

theorem parseLines_cons_bad (res : BuildInfo) (l : List Char)
    (rest : List (List Char)) (f0 : List Char) (hb : trimSpace l ≠ [])
    (hbc : breakColon l = (f0, none)) :
    parseLines res (l :: rest) = (BuildInfo.zero, some (invalidFieldMsg f0)) := by
  simp only [parseLines, if_neg hb, hbc]

theorem parseLines_cons_kv (res : BuildInfo) (l : List Char)
    (rest : List (List Char)) (f0 f1 : List Char) (hb : trimSpace l ≠ [])
    (hbc : breakColon l = (f0, some f1)) :
    parseLines res (l :: rest) =
      parseLines (applyField res f0 (trimSpace f1)) rest := by
  simp only [parseLines, if_neg hb, hbc]

theorem applyField_eq (res : BuildInfo) (k v : List Char) :
    applyField res k v =
      ⟨if k = str "Version" then v else res.Version,
       if k = str "GitRevision" then v else res.GitRevision,
       if k = str "GolangVersion" then v else res.GolangVersion,
       if k = str "BuildStatus" then v else res.BuildStatus,
       if k = str "GitTag" then v else res.GitTag,
       res.Vendor⟩ := by
  by_cases h1 : k = str "Version"
  · subst h1; rfl
  by_cases h2 : k = str "GitRevision"
  · subst h2; rfl
  by_cases h3 : k = str "GolangVersion"
  · subst h3; rfl
  by_cases h4 : k = str "BuildStatus"
  · subst h4; rfl
  by_cases h5 : k = str "GitTag"
  · subst h5; rfl
  simp [applyField, h1, h2, h3, h4, h5]

theorem specKeyValue_blank (k l : List Char) (hb : trimSpace l = []) :
    specKeyValue k l = none := by
  unfold specKeyValue
  rw [if_pos hb]

theorem specKeyValue_kv (k l f0 f1 : List Char) (hb : trimSpace l ≠ [])
    (hbc : breakColon l = (f0, some f1)) :
    specKeyValue k l = if f0 = k then some (trimSpace f1) else none := by
  unfold specKeyValue
  rw [if_neg hb, hbc]

theorem specLastValue_cons (k l : List Char) (rest : List (List Char))
    (d : List Char) :
    specLastValue k (l :: rest) d =
      specLastValue k rest ((specKeyValue k l).getD d) := rfl

theorem ite_some_getD (c : Prop) [Decidable c] (a d : List Char) :
    (if c then some a else none).getD d = if c then a else d := by
  by_cases h : c <;> simp [h]

theorem parseLines_ok_eq (ls : List (List Char)) : ∀ res : BuildInfo,
    (∀ l ∈ ls, LineOK l) →
    parseLines res ls =
      (⟨specLastValue (str "Version") ls res.Version,
        specLastValue (str "GitRevision") ls res.GitRevision,
        specLastValue (str "GolangVersion") ls res.GolangVersion,
        specLastValue (str "BuildStatus") ls res.BuildStatus,
        specLastValue (str "GitTag") ls res.GitTag,
        res.Vendor⟩, none) := by
  induction ls with
  | nil =>
    intro res _
    rfl
  | cons l rest ih =>
    intro res h
    have hl : LineOK l := h l (List.mem_cons_self l rest)
    have hrest : ∀ x ∈ rest, LineOK x := fun x hx =>
      h x (List.mem_cons_of_mem l hx)
    by_cases hb : trimSpace l = []
    · rw [parseLines_cons_blank res l rest hb, ih res hrest]
      simp only [specLastValue_cons, specKeyValue_blank _ l hb, Option.getD]
    · rcases hlc : breakColon l with ⟨f0, ob⟩
      cases ob with
      | none =>
        exfalso
        rcases hl with h1 | h2
        · exact hb h1
        · have hno : (breakColon l).2 = none := by rw [hlc]
          exact (breakColon_snd_none_iff l).mp hno h2
      | some f1 =>
        rw [parseLines_cons_kv res l rest f0 f1 hb hlc, ih _ hrest,
          applyField_eq]
        have hkv : ∀ k : List Char,
            specKeyValue k l = if f0 = k then some (trimSpace f1) else none :=
          fun k => specKeyValue_kv k l f0 f1 hb hlc
        simp only [specLastValue_cons, hkv, ite_some_getD]

theorem parseLines_ok_lines (ls : List (List Char)) : ∀ res : BuildInfo,
    (parseLines res ls).2 = none → ∀ l ∈ ls, LineOK l := by
  induction ls with
  | nil =>
    intro res _ l hl
    cases hl
  | cons l rest ih =>
    intro res h x hx
    by_cases hb : trimSpace l = []
    · rw [parseLines_cons_blank res l rest hb] at h
      rcases List.mem_cons.mp hx with h1 | h2
      · exact h1 ▸ Or.inl hb
      · exact ih res h x h2
    · rcases hlc : breakColon l with ⟨f0, ob⟩
      cases ob with
      | none =>
        rw [parseLines_cons_bad res l rest f0 hb hlc] at h
        cases h
      | some f1 =>
        rw [parseLines_cons_kv res l rest f0 f1 hb hlc] at h
        rcases List.mem_cons.mp hx with h1 | h2
        · subst h1
          refine Or.inr ?_
          by_contra hmem
          have : (breakColon x).2 = none := (breakColon_snd_none_iff x).mpr hmem
          rw [hlc] at this
          cases this
        · exact ih _ h x h2

theorem parseLines_firstBad (pre : List (List Char)) :
    ∀ (L : List Char) (post : List (List Char)) (res : BuildInfo),
    (∀ l ∈ pre, LineOK l) → trimSpace L ≠ [] → ':' ∉ L →
    parseLines res (pre ++ L :: post) =
      (BuildInfo.zero, some (invalidFieldMsg L)) := by
  induction pre with
  | nil =>
    intro L post res _ hbl hcol
    have hno : (breakColon L).2 = none := (breakColon_snd_none_iff L).mpr hcol
    have hfst : (breakColon L).1 = L := breakColon_fst_of_none L hno
    have hbc : breakColon L = (L, none) := Prod.ext hfst hno
    rw [List.nil_append]
    exact parseLines_cons_bad res L post L hbl hbc
  | cons p pre' ih =>
    intro L post res hpre hbl hcol
    have hp : LineOK p := hpre p (List.mem_cons_self p pre')
    have hpre' : ∀ l ∈ pre', LineOK l := fun l hl =>
      hpre l (List.mem_cons_of_mem p hl)
    rw [List.cons_append]
    by_cases hb : trimSpace p = []
    · rw [parseLines_cons_blank res p _ hb]
      exact ih L post res hpre' hbl hcol
    · rcases hlc : breakColon p with ⟨f0, ob⟩
      cases ob with
      | none =>
        exfalso
        rcases hp with h1 | h2
        · exact hb h1
        · have hno : (breakColon p).2 = none := by rw [hlc]
          exact (breakColon_snd_none_iff p).mp hno h2
      | some f1 =>
        rw [parseLines_cons_kv res p _ f0 f1 hb hlc]
        exact ih L post _ hpre' hbl hcol

theorem parseLines_all_blank (ls : List (List Char)) : ∀ res : BuildInfo,
    (∀ l ∈ ls, trimSpace l = []) → parseLines res ls = (res, none) := by
  induction ls with
  | nil => intro res _; rfl
  | cons l rest ih =>
    intro res h
    rw [parseLines_cons_blank res l rest (h l (List.mem_cons_self l rest))]
    exact ih res (fun x hx => h x (List.mem_cons_of_mem l hx))

theorem specLastValue_of_absent (k : List Char) (ls : List (List Char)) :
    ∀ d : List Char, (∀ l ∈ ls, specKeyValue k l = none) →
    specLastValue k ls d = d := by
  induction ls with
  | nil => intro d _; rfl
  | cons l rest ih =>
    intro d h
    rw [specLastValue_cons, h l (List.mem_cons_self l rest)]
    exact ih d (fun x hx => h x (List.mem_cons_of_mem l hx))

theorem newBuildInfo_ok_eq (s : List Char) (r : BuildInfo)
    (h : NewBuildInfoFromOldString s = (r, none)) :
    r = ⟨specLastValue (str "Version") (splitLines s) [],
         specLastValue (str "GitRevision") (splitLines s) [],
         specLastValue (str "GolangVersion") (splitLines s) [],
         specLastValue (str "BuildStatus") (splitLines s) [],
         specLastValue (str "GitTag") (splitLines s) [], []⟩ := by
  have hsnd : (parseLines BuildInfo.zero (splitLines s)).2 = none := by
    unfold NewBuildInfoFromOldString at h
    rw [h]
  have hok := parseLines_ok_lines (splitLines s) BuildInfo.zero hsnd
  have heq := parseLines_ok_eq (splitLines s) BuildInfo.zero hok
  unfold NewBuildInfoFromOldString at h
  rw [h] at heq
  exact congrArg Prod.fst heq

theorem trimSpace_space_cons (v : List Char) :
    trimSpace (' ' :: v) = trimSpace v := rfl

theorem colon_mem_legacyLine (k v : List Char) : ':' ∈ legacyLine k v := by
  unfold legacyLine
  exact List.mem_append.mpr (Or.inr (List.mem_cons_self ':' (' ' :: v)))

theorem nl_not_mem_legacyLine (k v : List Char) (hk : '\n' ∉ k)
    (hv : '\n' ∉ v) : '\n' ∉ legacyLine k v := by
  intro hmem
  unfold legacyLine at hmem
  rcases List.mem_append.mp hmem with h | h
  · exact hk h
  · rcases List.mem_cons.mp h with h1 | h2
    · exact absurd h1 (by decide)
    · rcases List.mem_cons.mp h2 with h3 | h4
      · exact absurd h3 (by decide)
      · exact hv h4

theorem parseLines_legacy_cons (res : BuildInfo) (k v : List Char)
    (rest : List (List Char)) (hk : ':' ∉ k) :
    parseLines res (legacyLine k v :: rest) =
      parseLines (applyField res k (trimSpace v)) rest := by
  have hb : trimSpace (legacyLine k v) ≠ [] :=
    trimSpace_ne_nil_of_colon _ (colon_mem_legacyLine k v)
  have hbc : breakColon (legacyLine k v) = (k, some (' ' :: v)) :=
    breakColon_key k (' ' :: v) hk
  rw [parseLines_cons_kv res _ rest k (' ' :: v) hb hbc, trimSpace_space_cons]

theorem parse_renderLegacy (b : BuildInfo) (h : GoodVals b) :
    NewBuildInfoFromOldString (renderLegacy b) =
      (⟨b.Version, b.GitRevision, b.GolangVersion, b.BuildStatus, b.GitTag,
        []⟩, none) := by
  obtain ⟨⟨hv1, ht1⟩, ⟨hv2, ht2⟩, ⟨hv3, ht3⟩, ⟨hv4, ht4⟩, ⟨hv5, ht5⟩⟩ := h
  have h1 : '\n' ∉ legacyLine (str "Version") b.Version :=
    nl_not_mem_legacyLine _ _ (by decide) hv1
  have h2 : '\n' ∉ legacyLine (str "GitRevision") b.GitRevision :=
    nl_not_mem_legacyLine _ _ (by decide) hv2
  have h3 : '\n' ∉ legacyLine (str "GolangVersion") b.GolangVersion :=
    nl_not_mem_legacyLine _ _ (by decide) hv3
  have h4 : '\n' ∉ legacyLine (str "BuildStatus") b.BuildStatus :=
    nl_not_mem_legacyLine _ _ (by decide) hv4
  have h5 : '\n' ∉ legacyLine (str "GitTag") b.GitTag :=
    nl_not_mem_legacyLine _ _ (by decide) hv5
  have hs : splitLines (renderLegacy b) =
      [legacyLine (str "Version") b.Version,
       legacyLine (str "GitRevision") b.GitRevision,
       legacyLine (str "GolangVersion") b.GolangVersion,
       legacyLine (str "BuildStatus") b.BuildStatus,
       legacyLine (str "GitTag") b.GitTag, []] := by
    unfold renderLegacy
    rw [splitLines_append, splitLines_append, splitLines_append,
      splitLines_append, splitLines_append, splitLines_eq_single _ h1,
      splitLines_eq_single _ h2, splitLines_eq_single _ h3,
      splitLines_eq_single _ h4, splitLines_eq_single _ h5]
    rfl
  unfold NewBuildInfoFromOldString
  rw [hs, parseLines_legacy_cons _ _ _ _ (by decide), ht1,
    parseLines_legacy_cons _ _ _ _ (by decide), ht2,
    parseLines_legacy_cons _ _ _ _ (by decide), ht3,
    parseLines_legacy_cons _ _ _ _ (by decide), ht4,
    parseLines_legacy_cons _ _ _ _ (by decide), ht5,
    parseLines_cons_blank _ [] [] rfl, parseLines_nil]
  rfl

theorem filepathBase_ne_nil (p : List Char) : filepathBase p ≠ [] := by
  unfold filepathBase
  split_ifs with h1 h2
  · decide
  · decide
  · exact h2

theorem adjustCommand_ne_nil (p : List Char) : adjustCommand p ≠ [] := by
  unfold adjustCommand
  split_ifs with h
  · decide
  · exact filepathBase_ne_nil p

/-- C1: for every input string whose newline-split lines decompose as a
prefix of blank-or-colon-bearing lines followed by a non-blank line `L`
with no colon (the first such line), `NewBuildInfoFromOldString` returns
the zero record together with an error message naming the raw line `L`
(its raw first segment); any fields set by the earlier lines are
discarded. -/
theorem C1_parse_aborts_on_first_colonless_line
    (s : List Char) (pre : List (List Char)) (L : List Char)
    (post : List (List Char)) (hsplit : splitLines s = pre ++ L :: post)
    (hpre : ∀ l ∈ pre, LineOK l) (hblank : trimSpace L ≠ [])
    (hcolon : ':' ∉ L) :
    NewBuildInfoFromOldString s =
      (BuildInfo.zero, some (invalidFieldMsg L)) := by
  unfold NewBuildInfoFromOldString
  rw [hsplit]
  exact parseLines_firstBad pre L post BuildInfo.zero hpre hblank hcolon

/-- C1 witness: a concrete input whose second line has no colon; the field
set by the first line is discarded and the error names the raw line. -/
theorem C1_witness :
    splitLines (str "Version: 1.2.3\nBadLineNoColon\nGitTag: t") =
      [str "Version: 1.2.3"] ++ str "BadLineNoColon" :: [str "GitTag: t"] ∧
    NewBuildInfoFromOldString
        (str "Version: 1.2.3\nBadLineNoColon\nGitTag: t") =
      (BuildInfo.zero, some (invalidFieldMsg (str "BadLineNoColon"))) :=
  ⟨by decide,
   C1_parse_aborts_on_first_colonless_line _ [str "Version: 1.2.3"]
     (str "BadLineNoColon") [str "GitTag: t"] (by decide) (by decide)
     (by decide) (by decide)⟩

/-- C2: whenever `NewBuildInfoFromOldString` succeeds, every record field
equals the trimmed value of the last line whose verbatim key is exactly
the matching one of `Version`, `GitRevision`, `GolangVersion`,
`BuildStatus`, `GitTag` (case-sensitive; last occurrence wins; default
empty when the key never occurs, so every other key is ignored), and the
vendor field is never set. -/
theorem C2_field_dispatch (s : List Char) (r : BuildInfo)
    (h : NewBuildInfoFromOldString s = (r, none)) :
    r.Version = specLastValue (str "Version") (splitLines s) [] ∧
    r.GitRevision = specLastValue (str "GitRevision") (splitLines s) [] ∧
    r.GolangVersion = specLastValue (str "GolangVersion") (splitLines s) [] ∧
    r.BuildStatus = specLastValue (str "BuildStatus") (splitLines s) [] ∧
    r.GitTag = specLastValue (str "GitTag") (splitLines s) [] ∧
    r.Vendor = [] := by
  rw [newBuildInfo_ok_eq s r h]
  exact ⟨rfl, rfl, rfl, rfl, rfl, rfl⟩

/-- C2 witness: an unknown key is ignored, the later `Version` line wins,
and the vendor field stays at its default. -/
theorem C2_witness :
    NewBuildInfoFromOldString
        (str "Unknown: x\nVersion: a\nVersion: b\nGitTag: t\n") =
      (⟨str "b", [], [], [], str "t", []⟩, none) ∧
    (⟨str "b", [], [], [], str "t", []⟩ : BuildInfo).Version =
      specLastValue (str "Version")
        (splitLines (str "Unknown: x\nVersion: a\nVersion: b\nGitTag: t\n"))
        [] ∧
    (⟨str "b", [], [], [], str "t", []⟩ : BuildInfo).Vendor = [] :=
  ⟨by decide,
   (C2_field_dispatch (str "Unknown: x\nVersion: a\nVersion: b\nGitTag: t\n")
     ⟨str "b", [], [], [], str "t", []⟩ (by decide)).1,
   (C2_field_dispatch (str "Unknown: x\nVersion: a\nVersion: b\nGitTag: t\n")
     ⟨str "b", [], [], [], str "t", []⟩ (by decide)).2.2.2.2.2⟩

/-- C3 counterexample: on the accepted input `"GitRevision: abcd"` the
recognized key `Version` is absent, yet the returned record's version is
the empty string, not the sentinel `"unknown"` — refuting the claim that
absence is represented by `"unknown"` and never by an empty string. -/
theorem C3_cex_absent_field_is_empty :
    (NewBuildInfoFromOldString (str "GitRevision: abcd")).2 = none ∧
    (NewBuildInfoFromOldString (str "GitRevision: abcd")).1.Version = [] ∧
    (NewBuildInfoFromOldString (str "GitRevision: abcd")).1.Version ≠
      str "unknown" := by
  decide

/-- C3 as amended: for every accepted text, a recognized field whose key
occurs on no line is left at the zero value — the empty string (the parser
starts from the zero record and consults no caller-supplied default); the
vendor field is always the empty string; and the sentinel `"unknown"`,
when present as an explicit value in the text, round-trips through the
parser unchanged. -/
theorem C3_absent_field_default (s : List Char) (r : BuildInfo)
    (h : NewBuildInfoFromOldString s = (r, none)) :
    ((∀ l ∈ splitLines s, specKeyValue (str "Version") l = none) →
      r.Version = []) ∧
    ((∀ l ∈ splitLines s, specKeyValue (str "GitRevision") l = none) →
      r.GitRevision = []) ∧
    ((∀ l ∈ splitLines s, specKeyValue (str "GolangVersion") l = none) →
      r.GolangVersion = []) ∧
    ((∀ l ∈ splitLines s, specKeyValue (str "BuildStatus") l = none) →
      r.BuildStatus = []) ∧
    ((∀ l ∈ splitLines s, specKeyValue (str "GitTag") l = none) →
      r.GitTag = []) ∧
    r.Vendor = [] ∧
    NewBuildInfoFromOldString (str "Version: unknown") =
      (⟨str "unknown", [], [], [], [], []⟩, none) := by
  rw [newBuildInfo_ok_eq s r h]
  exact ⟨fun ha => specLastValue_of_absent _ _ [] ha,
    fun ha => specLastValue_of_absent _ _ [] ha,
    fun ha => specLastValue_of_absent _ _ [] ha,
    fun ha => specLastValue_of_absent _ _ [] ha,
    fun ha => specLastValue_of_absent _ _ [] ha,
    rfl, by decide⟩

/-- C3 witness: on `"GitRevision: abcd"` the key `Version` occurs on no
line, and the amended claim concludes the version field is empty. -/
theorem C3_witness :
    NewBuildInfoFromOldString (str "GitRevision: abcd") =
      (⟨[], str "abcd", [], [], [], []⟩, none) ∧
    (∀ l ∈ splitLines (str "GitRevision: abcd"),
      specKeyValue (str "Version") l = none) ∧
    (⟨[], str "abcd", [], [], [], []⟩ : BuildInfo).Version = [] :=
  ⟨by decide, by decide,
   (C3_absent_field_default (str "GitRevision: abcd")
     ⟨[], str "abcd", [], [], [], []⟩ (by decide)).1 (by decide)⟩

/-- C4: the compact renderer yields exactly
`<version>-<gitRevision>-<buildStatus>` for every record, and embedded
hyphens are not escaped — two distinct records can render identically. -/
theorem C4_compact_layout :
    (∀ b : BuildInfo,
      BuildInfo.String b =
        b.Version ++ str "-" ++ b.GitRevision ++ str "-" ++ b.BuildStatus) ∧
    (∃ b1 b2 : BuildInfo,
      b1 ≠ b2 ∧ BuildInfo.String b1 = BuildInfo.String b2) :=
  ⟨fun _ => rfl,
   ⟨⟨str "a-b", str "c", [], [], [], []⟩,
    ⟨str "a", str "b-c", [], [], [], []⟩, by decide, by decide⟩⟩

/-- C5: the parser splits the input on newline; skips lines blank after
trimming; splits a remaining line at its first colon only, so the value
may contain colons; trims the value but compares the key verbatim — a key
with surrounding whitespace matches nothing, as the two concrete inputs
with a padded `Version` key show. -/
theorem C5_line_processing :
    (∀ a b : List Char,
      splitLines (a ++ '\n' :: b) = splitLines a ++ splitLines b) ∧
    (∀ (res : BuildInfo) (l : List Char) (rest : List (List Char)),
      trimSpace l = [] → parseLines res (l :: rest) = parseLines res rest) ∧
    (∀ (res : BuildInfo) (k v : List Char) (rest : List (List Char)),
      ':' ∉ k →
      parseLines res ((k ++ ':' :: v) :: rest) =
        parseLines (applyField res k (trimSpace v)) rest) ∧
    NewBuildInfoFromOldString (str " Version: 1.2.3") =
      (BuildInfo.zero, none) ∧
    NewBuildInfoFromOldString (str "Version : 1.2.3") =
      (BuildInfo.zero, none) := by
  refine ⟨splitLines_append, parseLines_cons_blank, ?_, by decide, by decide⟩
  intro res k v rest hk
  have hb : trimSpace (k ++ ':' :: v) ≠ [] :=
    trimSpace_ne_nil_of_colon _
      (List.mem_append.mpr (Or.inr (List.mem_cons_self ':' v)))
  exact parseLines_cons_kv res _ rest k v hb (breakColon_key k v hk)

/-- C5 witness: a line whose value contains a colon and padding is split
at the first colon with the value trimmed and the key taken verbatim. -/
theorem C5_witness :
    (':' ∉ str "Version") ∧
    parseLines BuildInfo.zero [str "Version" ++ ':' :: str " a:b "] =
      parseLines
        (applyField BuildInfo.zero (str "Version") (trimSpace (str " a:b ")))
        [] :=
  ⟨by decide, C5_line_processing.2.2.1 _ _ _ _ (by decide)⟩

/-- C6: the user-agent renderer yields exactly
`<programName>/<version> (<osName>/<archName>) istio/<vendor>`, where the
program name is `adjustCommand argv0`: the literal `"unknown"` for an
empty `argv0`, the path basename otherwise, and never the empty string. -/
theorem C6_user_agent :
    (∀ (b : BuildInfo) (argv0 osName archName : List Char),
      BuildInfo.UserAgent b argv0 osName archName =
        adjustCommand argv0 ++ str "/" ++ b.Version ++ str " (" ++ osName ++
          str "/" ++ archName ++ str ") istio/" ++ b.Vendor) ∧
    adjustCommand [] = str "unknown" ∧
    (∀ p : List Char, p ≠ [] → adjustCommand p = filepathBase p) ∧
    (∀ p : List Char, adjustCommand p ≠ []) ∧
    adjustCommand (str "/usr/bin/istioctl") = str "istioctl" := by
  refine ⟨fun b a o ar => rfl, by decide, ?_, adjustCommand_ne_nil,
    by decide⟩
  intro p hp
  unfold adjustCommand
  rw [if_neg hp]

/-- C6 witness: a concrete non-empty `argv0` takes the basename branch. -/
theorem C6_witness :
    (str "/usr/bin/istioctl" ≠ []) ∧
    adjustCommand (str "/usr/bin/istioctl") =
      filepathBase (str "/usr/bin/istioctl") :=
  ⟨by decide, C6_user_agent.2.2.1 _ (by decide)⟩

/-- C7: the empty string, and every input all of whose lines are blank
after trimming, parse to the zero record with no error. -/
theorem C7_blank_input :
    NewBuildInfoFromOldString (str "") = (BuildInfo.zero, none) ∧
    (∀ s : List Char, (∀ l ∈ splitLines s, trimSpace l = []) →
      NewBuildInfoFromOldString s = (BuildInfo.zero, none)) := by
  refine ⟨by decide, ?_⟩
  intro s h
  unfold NewBuildInfoFromOldString
  exact parseLines_all_blank (splitLines s) BuildInfo.zero h

/-- C7 witness: the whitespace-only input from the spec example. -/
theorem C7_witness :
    (∀ l ∈ splitLines (str "\n\n  \n"), trimSpace l = []) ∧
    NewBuildInfoFromOldString (str "\n\n  \n") = (BuildInfo.zero, none) :=
  ⟨by decide, C7_blank_input.2 _ (by decide)⟩

/-- C8 counterexample: a record whose version contains a newline renders,
via the legacy multi-line format, into text that re-parses to an error and
does not recover the version field — refuting the claim's universal
round-trip for every record. -/
theorem C8_cex_legacy_round_trip_fails :
    (NewBuildInfoFromOldString
        (renderLegacy ⟨str "x\nB", [], [], [], [], []⟩)).1.Version ≠
      str "x\nB" ∧
    (NewBuildInfoFromOldString
        (renderLegacy ⟨str "x\nB", [], [], [], [], []⟩)).2 ≠ none := by
  decide

/-- C8 as amended: rendering via the compact form then re-parsing fails to
recover some record, while every record whose five recognized values
contain no newline and are unchanged by whitespace trimming round-trips
through the legacy multi-line format: re-parsing recovers the five
recognized fields (the vendor comes back at its zero value). -/
theorem C8_asymmetric_round_trip :
    (∃ r : BuildInfo,
      NewBuildInfoFromOldString (BuildInfo.String r) ≠ (r, none)) ∧
    (∀ r : BuildInfo, GoodVals r →
      NewBuildInfoFromOldString (renderLegacy r) =
        (⟨r.Version, r.GitRevision, r.GolangVersion, r.BuildStatus,
          r.GitTag, []⟩, none)) :=
  ⟨⟨BuildInfo.zero, by decide⟩, parse_renderLegacy⟩

/-- C8 witness: a concrete well-behaved record round-trips through the
legacy format with its five recognized fields recovered. -/
theorem C8_witness :
    GoodVals ⟨str "1.2.3", str "abcd", str "go1.17", str "Clean",
      str "tag-1", str "oss"⟩ ∧
    NewBuildInfoFromOldString
        (renderLegacy ⟨str "1.2.3", str "abcd", str "go1.17", str "Clean",
          str "tag-1", str "oss"⟩) =
      (⟨str "1.2.3", str "abcd", str "go1.17", str "Clean", str "tag-1",
        []⟩, none) :=
  ⟨by decide, C8_asymmetric_round_trip.2 _ (by decide)⟩

/-- C9: serialized to the structured interchange format, the six fields
appear under exactly the external names `version`, `revision`,
`golang_version`, `status`, `tag`, `vendor`, in that field-to-name
correspondence, and under no other name. -/
theorem C9_json_field_names (b : BuildInfo) :
    (toJSONFields b).map Prod.fst =
      [str "version", str "revision", str "golang_version", str "status",
       str "tag", str "vendor"] ∧
    (toJSONFields b).map Prod.snd =
      [b.Version, b.GitRevision, b.GolangVersion, b.BuildStatus, b.GitTag,
       b.Vendor] :=
  ⟨rfl, rfl⟩

/-- C10: an input all of whose non-blank lines contain a colon never
yields an error, and a line whose key is empty (the line starts with a
colon) is treated like an unknown key: it is skipped and sets no field. -/
theorem C10_colon_line_never_errors :
    (∀ s : List Char,
      (∀ l ∈ splitLines s, trimSpace l ≠ [] → ':' ∈ l) →
      (NewBuildInfoFromOldString s).2 = none) ∧
    (∀ (res : BuildInfo) (v : List Char) (rest : List (List Char)),
      parseLines res ((':' :: v) :: rest) = parseLines res rest) := by
  constructor
  · intro s h
    have hok : ∀ l ∈ splitLines s, LineOK l := fun l hl =>
      or_iff_not_imp_left.mpr (h l hl)
    unfold NewBuildInfoFromOldString
    rw [parseLines_ok_eq (splitLines s) BuildInfo.zero hok]
  · intro res v rest
    have hb : trimSpace (':' :: v) ≠ [] :=
      trimSpace_ne_nil_of_colon _ (List.mem_cons_self ':' v)
    have hbc : breakColon (':' :: v) = ([], some v) := by
      simp [breakColon]
    rw [parseLines_cons_kv res _ rest [] v hb hbc]
    rfl

/-- C10 witness: an input with an empty-key line parses without error. -/
theorem C10_witness :
    (∀ l ∈ splitLines (str "Version: 1\n:value\n"),
      trimSpace l ≠ [] → ':' ∈ l) ∧
    (NewBuildInfoFromOldString (str "Version: 1\n:value\n")).2 = none :=
  ⟨by decide, C10_colon_line_never_errors.1 _ (by decide)⟩
